import Mathlib

/-!
# Verification of the OTP repository (HMAC / HOTP / TOTP over SHA-1)

Shallow embedding of the repository's two source files (a Go package and
`otp.js`, which implement the same algorithms).  Byte sequences are
`List Nat` with values `< 256`; 32-bit words are `Nat` reduced modulo
`2 ^ 32` wherever overflow matters.  The external collaborator
`crypto/sha1` (resp. the JS `sha1` function) is embedded as an executable
SHA-1 over byte lists.
-/

namespace OTP

/-- `2 ^ 32`, the modulus for 32-bit word arithmetic. -/
def w32 : Nat := 4294967296

/-- 32-bit left rotation of a word `x < 2 ^ 32` by `s` bits. -/
def rotl (s x : Nat) : Nat := ((x <<< s) ||| (x >>> (32 - s))) % w32

/-- Big-endian byte serialization of `n` into `k` bytes. -/
def toBytesBE (n k : Nat) : List Nat :=
  (List.range k).map (fun i => (n >>> (8 * (k - 1 - i))) % 256)

/-- SHA-1 message padding: append `0x80`, zero bytes up to 56 mod 64,
then the 64-bit big-endian bit length. -/
def sha1pad (msg : List Nat) : List Nat :=
  msg ++ [0x80] ++ List.replicate ((119 - msg.length % 64) % 64) 0
      ++ toBytesBE (8 * msg.length) 8

/-- Split a byte list into 64-byte chunks, with structural fuel
(one unit per chunk; `l.length` units always suffice). -/
def chunksFuel : Nat → List Nat → List (List Nat)
  | 0, _ => []
  | fuel + 1, l => if l = [] then [] else l.take 64 :: chunksFuel fuel (l.drop 64)

/-- Split a byte list into 64-byte chunks. -/
def chunks (l : List Nat) : List (List Nat) := chunksFuel l.length l

/-- Group bytes into big-endian 32-bit words. -/
def bytesToWords : List Nat → List Nat
  | b0 :: b1 :: b2 :: b3 :: rest =>
      (((b0 * 256 + b1) * 256 + b2) * 256 + b3) :: bytesToWords rest
  | _ => []

/-- SHA-1 message-schedule extension step, on the reversed word list
(most recent word first): prepend `rotl 1 (w[n-3] ^^^ w[n-8] ^^^ w[n-14] ^^^ w[n-16])`,
`fuel` times. -/
def extendLoop : Nat → List Nat → List Nat
  | 0, rws => rws
  | fuel + 1, rws =>
      extendLoop fuel
        (rotl 1 (((rws.getD 2 0) ^^^ (rws.getD 7 0)) ^^^
                 ((rws.getD 13 0) ^^^ (rws.getD 15 0))) :: rws)

/-- Extend 16 words to the 80-word SHA-1 message schedule. -/
def extendWords (ws : List Nat) : List Nat :=
  (extendLoop 64 ws.reverse).reverse

/-- The SHA-1 round function `f` for round `i`. -/
def sha1f (i b c d : Nat) : Nat :=
  if i < 20 then (b &&& c) ||| ((b ^^^ 4294967295) &&& d)
  else if i < 40 then (b ^^^ c) ^^^ d
  else if i < 60 then ((b &&& c) ||| (b &&& d)) ||| (c &&& d)
  else (b ^^^ c) ^^^ d

/-- The SHA-1 round constant `K` for round `i`. -/
def sha1k (i : Nat) : Nat :=
  if i < 20 then 0x5A827999
  else if i < 40 then 0x6ED9EBA1
  else if i < 60 then 0x8F1BBCDC
  else 0xCA62C1D6

/-- The five-word SHA-1 chaining state. -/
structure Sha1State where
  h0 : Nat
  h1 : Nat
  h2 : Nat
  h3 : Nat
  h4 : Nat
deriving Repr, DecidableEq

/-- The SHA-1 initialization vector. -/
def sha1init : Sha1State :=
  ⟨0x67452301, 0xEFCDAB89, 0x98BADCFE, 0x10325476, 0xC3D2E1F0⟩

/-- One SHA-1 round: rotate the working state through `(a, b, c, d, e)`. -/
def sha1round (st : Sha1State) (iw : Nat × Nat) : Sha1State :=
  let temp := (rotl 5 st.h0 + sha1f iw.1 st.h1 st.h2 st.h3 + st.h4
               + sha1k iw.1 + iw.2) % w32
  ⟨temp, st.h0, rotl 30 st.h1, st.h2, st.h3⟩

/-- Process one 64-byte chunk: run 80 rounds and add the result into the
chaining state modulo `2 ^ 32`. -/
def processChunk (h : Sha1State) (chunk : List Nat) : Sha1State :=
  let ws := extendWords (bytesToWords chunk)
  let st := (List.zip (List.range 80) ws).foldl sha1round h
  ⟨(h.h0 + st.h0) % w32, (h.h1 + st.h1) % w32, (h.h2 + st.h2) % w32,
   (h.h3 + st.h3) % w32, (h.h4 + st.h4) % w32⟩

/-- SHA-1 of a byte list, as the 20-byte digest.  Embeds the external
hash engine (`crypto/sha1` in the Go file, `sha1` in `otp.js`). -/
def sha1 (msg : List Nat) : List Nat :=
  let f := (chunks (sha1pad msg)).foldl processChunk sha1init
  toBytesBE f.h0 4 ++ toBytesBE f.h1 4 ++ toBytesBE f.h2 4
    ++ toBytesBE f.h3 4 ++ toBytesBE f.h4 4

/-- `sha1.BlockSize`: the hash block size, 64 bytes. -/
def blocksize : Nat := 64

/-- `sha1.Size`: the digest length, 20 bytes. -/
def digestLength : Nat := 20

/-- Key normalization, as inlined at the top of `HMAC` in the Go file
(and identically in `hmac` of `otp.js`): pad a short key with zero bytes
to `blocksize`; truncate an oversized key to its first `blocksize` bytes
(the source's `key = key[:blocksize]`, with a `TODO: hash key` comment). -/
def normKey (key : List Nat) : List Nat :=
  if key.length < blocksize then key ++ List.replicate (blocksize - key.length) 0
  else if key.length > blocksize then key.take blocksize
  else key

/-- The outer padding constant: `blocksize` repetitions of `0x5C`. -/
def opad : List Nat := List.replicate blocksize 0x5C

/-- The inner padding constant: `blocksize` repetitions of `0x36`. -/
def ipad : List Nat := List.replicate blocksize 0x36

/-- `HMAC` as the source computes it: normalize the key, form the two
XOR buffers, hash `(K' XOR ipad) || message`, then hash that digest
again.  The Go line is `sum2 := sha1.Sum(sum1[:])` — the buffer
`key_xor_opad` is computed but unused (its use is commented out);
`otp.js` likewise computes `outerStr = sha1(innerBytes)`. -/
def HMAC (key message : List Nat) : List Nat :=
  let key' := normKey key
  let key_xor_opad := List.zipWith HXor.hXor key' opad
  let key_xor_ipad := List.zipWith HXor.hXor key' ipad
  let sum1 := sha1 (key_xor_ipad ++ message)
  let sum2 := sha1 sum1
  sum2

/-- The HMAC construction as the claim (and the source's own doc
comments) state it: the outer digest hashes `(K' XOR opad) || inner`.
Stated from the spec's words, for comparison with `HMAC`. -/
def HMACspec (key message : List Nat) : List Nat :=
  let key' := normKey key
  let key_xor_opad := List.zipWith HXor.hXor key' opad
  let key_xor_ipad := List.zipWith HXor.hXor key' ipad
  let sum1 := sha1 (key_xor_ipad ++ message)
  let sum2 := sha1 (key_xor_opad ++ sum1)
  sum2

/-- `codeLen` in `HOTP` (and in `hotp` of `otp.js`): the fixed number of
output digits. -/
def codeLen : Nat := 6

/-- `HOTP` from the Go file: take the first `codeLen` bytes of the HMAC
tag and reduce each modulo 10 (the loop `code[i] = b % 10`). -/
def HOTP (key counter : List Nat) : List Nat :=
  let h := HMAC key counter
  let code := (h.take codeLen).map (fun b => b % 10)
  code

/-- The code as `otp.js`'s `hotp` renders it: each digit value of 0–9
appended to a string as its decimal character (`code += htop_value[i] % 10`). -/
def hotpStr (key counter : List Nat) : String :=
  String.mk ((HOTP key counter).map (fun d => Char.ofNat (48 + d)))

/-- A string's bytes, as Go's `[]byte(tstr)` produces for the ASCII
decimal string: character codes in order. -/
def strBytes (s : String) : List Nat := s.toList.map Char.toNat

/-- `TOTP` from the Go file, with the wall-clock read (`time.Now().Unix()`)
injected as the argument `now` in seconds: divide by 30, format the
counter in base 10 (`strconv.FormatInt(t, 10)`), and call `HOTP` on its
bytes.  `otp.js` computes the same `Math.floor(time / 1000 / 30)` counter. -/
def TOTP (key : List Nat) (now : Nat) : List Nat :=
  let t := now / 30
  let tstr := Nat.repr t
  HOTP key (strBytes tstr)

set_option maxRecDepth 100000

/-! ## Helper lemmas -/

theorem toBytesBE_len (n k : Nat) : (toBytesBE n k).length = k := by
  simp [toBytesBE]

theorem sha1_len (msg : List Nat) : (sha1 msg).length = 20 := by
  simp [sha1, toBytesBE]

theorem normKey_len (key : List Nat) : (normKey key).length = blocksize := by
  simp only [normKey, blocksize]
  split
  · simp only [List.length_append, List.length_replicate]; omega
  · split
    · simp only [List.length_take]; omega
    · omega

theorem hmac_len (key msg : List Nat) : (HMAC key msg).length = 20 := by
  simp only [HMAC]
  exact sha1_len _

theorem hotp_len (key counter : List Nat) : (HOTP key counter).length = codeLen := by
  simp only [HOTP, List.length_map, List.length_take, hmac_len, codeLen]
  omega

theorem hotp_digit_lt (key counter : List Nat) : ∀ d ∈ HOTP key counter, d < 10 := by
  intro d hd
  simp only [HOTP, List.mem_map] at hd
  obtain ⟨b, _, rfl⟩ := hd
  exact Nat.mod_lt _ (by omega)

theorem take_map_eq_range_getD (l : List Nat) (f : Nat → Nat) (n : Nat)
    (h : n ≤ l.length) :
    (l.take n).map f = (List.range n).map (fun i => f (l.getD i 0)) := by
  apply List.ext_getElem
  · simp; omega
  · intro i h1 h2
    have hi : i < l.length := by
      simp only [List.length_map, List.length_take] at h1
      omega
    simp only [List.getElem_map, List.getElem_take, List.getElem_range]
    rw [List.getD_eq_getElem l 0 hi]

/-! ## Claim theorems -/

/-- C1: the claim states the two-pass HMAC construction, with the outer
digest `Hash((K' XOR opad) || inner)`.  The code (both files, and the
code's own doc comments state the claimed construction) instead hashes
the inner digest alone: at the empty key and empty message the code's
`HMAC` equals `sha1 (sha1 ((K' XOR ipad) ++ message))` and differs from
the claimed construction `HMACspec` (whose value here,
`fbdb1d1b18aa6c08324b7d64b71fb76370690e1d`, is the published HMAC-SHA1
test vector for empty key and message). -/
theorem hmac_outer_omits_opad :
    HMAC [] [] = sha1 (sha1 (List.zipWith HXor.hXor (normKey []) ipad ++ [])) ∧
    HMAC [] [] ≠ HMACspec [] [] :=
  ⟨rfl, by decide⟩

/-- C2: the HMAC output never involves the outer pad: for every key and
message it equals `Hash(Hash((K' XOR ipad) || message))`, and any two
keys with the same inner-padded block produce the same output. -/
theorem hmac_opad_independent (key msg : List Nat) :
    HMAC key msg = sha1 (sha1 (List.zipWith HXor.hXor (normKey key) ipad ++ msg)) ∧
    ∀ key2 : List Nat,
      List.zipWith HXor.hXor (normKey key) ipad =
        List.zipWith HXor.hXor (normKey key2) ipad →
      HMAC key msg = HMAC key2 msg := by
  refine ⟨rfl, fun key2 h => ?_⟩
  show sha1 (sha1 (List.zipWith HXor.hXor (normKey key) ipad ++ msg)) =
       sha1 (sha1 (List.zipWith HXor.hXor (normKey key2) ipad ++ msg))
  rw [h]

theorem hmac_opad_independent_witness :
    List.zipWith HXor.hXor (normKey []) ipad =
      List.zipWith HXor.hXor (normKey [0]) ipad ∧
    HMAC [] [] = HMAC [0] [] :=
  ⟨by decide, (hmac_opad_independent [] []).2 [0] (by decide)⟩

/-- C3: HOTP takes the first `codeLen = 6` bytes of the tag
`HMAC(key, counter)`, reduces each modulo 10, and returns those digits
in order (the `i`-th output digit is the `i`-th tag byte mod 10). -/
theorem hotp_first_bytes_mod10 (key counter : List Nat) :
    codeLen = 6 ∧
    HOTP key counter = ((HMAC key counter).take codeLen).map (fun b => b % 10) ∧
    HOTP key counter =
      (List.range codeLen).map (fun i => (HMAC key counter).getD i 0 % 10) := by
  refine ⟨rfl, rfl, ?_⟩
  show ((HMAC key counter).take codeLen).map (fun b => b % 10) = _
  exact take_map_eq_range_getD _ _ _ (by rw [hmac_len]; decide)

/-- C4: with the default configuration the JS code string has exactly 6
characters, each between `'0'` and `'9'`, for every key and counter. -/
theorem hotp_code_six_decimal_chars (key counter : List Nat) :
    (hotpStr key counter).length = 6 ∧
    ∀ c ∈ (hotpStr key counter).toList, ('0' : Char) ≤ c ∧ c ≤ ('9' : Char) := by
  constructor
  · simp only [hotpStr, String.length, String.toList, List.length_map]
    rw [hotp_len]
    rfl
  · intro c hc
    simp only [hotpStr, String.toList, List.mem_map] at hc
    obtain ⟨d, hd, rfl⟩ := hc
    have h10 : d < 10 := hotp_digit_lt key counter d hd
    interval_cases d <;> exact ⟨by decide, by decide⟩

/-- C5: TOTP divides the injected Unix-seconds reading by `step = 30`
with floor division, encodes the counter as its decimal-string
representation (the base-10 digit characters, in order), and calls HOTP
on those bytes. -/
theorem totp_decimal_counter (key : List Nat) (now : Nat) :
    TOTP key now = HOTP key (strBytes (Nat.repr (now / 30))) ∧
    strBytes (Nat.repr (now / 30)) =
      (Nat.toDigits 10 (now / 30)).map Char.toNat := by
  exact ⟨rfl, rfl⟩

/-- C6: in the code the requested number of digits is the constant
`codeLen = 6`; it is positive and at most the digest length 20, so the
`InvalidDigits` condition (non-positive or exceeding the digest length)
never holds, and every input succeeds totally with a full code and no
partial state. -/
theorem hotp_digits_always_valid (key counter : List Nat) :
    (0 < codeLen ∧ codeLen ≤ digestLength) ∧
    (HOTP key counter).length = codeLen ∧
    ∀ d ∈ HOTP key counter, d < 10 :=
  ⟨⟨by decide, by decide⟩, hotp_len key counter, hotp_digit_lt key counter⟩

/-- C7: a key longer than the 64-byte block size is normalized by raw
truncation to its first `blocksize` bytes (the source's
`key = key[:blocksize]`), not by hashing it first. -/
theorem oversized_key_truncated (key : List Nat) (h : blocksize < key.length) :
    normKey key = key.take blocksize := by
  simp only [normKey, blocksize] at *
  rw [if_neg (by omega), if_pos (by omega)]

theorem oversized_key_truncated_witness :
    blocksize < (List.replicate 65 7).length ∧
    normKey (List.replicate 65 7) = (List.replicate 65 7).take blocksize :=
  ⟨by decide, oversized_key_truncated (List.replicate 65 7) (by decide)⟩

/-- C8: for every key and message the HMAC output has exactly
`digestLength = 20` bytes (the SHA-1 digest length), regardless of the
lengths of key and message. -/
theorem hmac_output_digest_length (key msg : List Nat) :
    (HMAC key msg).length = digestLength ∧ digestLength = 20 :=
  ⟨hmac_len key msg, rfl⟩

/-- C9: key normalization is idempotent: a key of exactly `blocksize`
bytes is returned unchanged, and normalizing twice equals normalizing
once. -/
theorem normKey_idempotent (key : List Nat) :
    (key.length = blocksize → normKey key = key) ∧
    normKey (normKey key) = normKey key := by
  have fix : ∀ l : List Nat, l.length = blocksize → normKey l = l := by
    intro l hl
    simp only [normKey, blocksize] at *
    rw [if_neg (by omega), if_neg (by omega)]
  exact ⟨fix key, fix _ (normKey_len key)⟩

theorem normKey_idempotent_witness :
    (List.replicate 64 3).length = blocksize ∧
    normKey (List.replicate 64 3) = List.replicate 64 3 ∧
    normKey (normKey [1, 2, 3]) = normKey [1, 2, 3] :=
  ⟨by decide, (normKey_idempotent (List.replicate 64 3)).1 (by decide),
    (normKey_idempotent [1, 2, 3]).2⟩

/-- C10: two time readings in the same 30-second window (equal floor
quotients by 30) produce identical TOTP codes for every key. -/
theorem totp_window_deterministic (key : List Nat) (t1 t2 : Nat)
    (h : t1 / 30 = t2 / 30) : TOTP key t1 = TOTP key t2 := by
  simp only [TOTP, h]

theorem totp_window_deterministic_witness :
    31 / 30 = 59 / 30 ∧ TOTP [] 31 = TOTP [] 59 :=
  ⟨by decide, totp_window_deterministic [] 31 59 (by decide)⟩

end OTP
